import Mathlib

/-!
Verification of the IndexChain parser (bchain/coins/indexchain/indexchainparser.go).

The Go code is shallowly embedded: byte streams are lists of naturals
(each < 256 on real inputs), readers are state-passing functions on the
remaining stream, fallible operations return `Except DecodeError`.
External collaborators (the generic Bitcoin wire transaction decoder,
the generic output-script-to-address resolver, the JSON unmarshaller and
the decimal amount conversion) are taken as function parameters, exactly
as the spec treats them as boundary contracts.
-/

namespace IndexChain

/-- Errors produced while decoding.  `unexpectedEOF` models `io.EOF` /
`io.ErrUnexpectedEOF` from short reads, `nonCanonicalVarInt` models the
btcd wire error for non-minimal compact-size encodings, and `external`
models any error value returned by an external collaborator. -/
inductive DecodeError where
  | unexpectedEOF : DecodeError
  | nonCanonicalVarInt : DecodeError
  | external : String → DecodeError
deriving DecidableEq, Repr

/-- Constant `SpendTxID` from indexchainparser.go line 27:
a string of 64 hexadecimal zero characters. -/
def SpendTxID : String :=
  "0000000000000000000000000000000000000000000000000000000000000000"

/-- Reserved opcode `OpZeroCoinMint = 0xc1`. -/
def OpZeroCoinMint : Nat := 0xc1
/-- Reserved opcode `OpZeroCoinSpend = 0xc2`. -/
def OpZeroCoinSpend : Nat := 0xc2
/-- Reserved opcode `OpSigmaMint = 0xc3`. -/
def OpSigmaMint : Nat := 0xc3
/-- Reserved opcode `OpSigmaSpend = 0xc4`. -/
def OpSigmaSpend : Nat := 0xc4

/-- Transaction input (`bchain.Vin`). -/
structure Vin where
  Coinbase : String
  Txid : String
  Vout : Nat
  ScriptSigHex : String
  Sequence : Nat
  Addresses : List String
deriving DecidableEq, Repr

/-- Transaction output (`bchain.Vout`).  `ValueSat` is the integer satoshi
amount (a `big.Int` in Go), `JsonValue` the transient decimal
representation used during JSON unmarshalling. -/
structure Vout where
  ValueSat : Int
  JsonValue : String
  N : Nat
  ScriptPubKeyHex : String
deriving DecidableEq, Repr

/-- Transaction (`bchain.Tx`), with the fields relevant to this parser. -/
structure Tx where
  Hex : String
  Txid : String
  Version : Int
  LockTime : Nat
  Time : Int
  Blocktime : Int
  Vin : List Vin
  Vout : List Vout
deriving DecidableEq, Repr

/-- Decoded block header (`wire.BlockHeader`): version, previous-block
hash, merkle root, timestamp (epoch seconds, a `uint32` on the wire),
difficulty bits and nonce. -/
structure BlockHeader where
  version : Nat
  prevBlock : List Nat
  merkleRoot : List Nat
  timestamp : Nat
  bits : Nat
  nonce : Nat
deriving DecidableEq, Repr

/-- Result block (`bchain.Block`): its header part keeps only the size of
the raw buffer and the header timestamp as Unix epoch seconds
(`header.Timestamp.Unix()`), plus the decoded transactions. -/
structure Block where
  Size : Nat
  Time : Nat
  Txs : List Tx
deriving DecidableEq, Repr

/-- Read exactly `n` bytes from the stream (`io.ReadFull`): fails when
fewer than `n` bytes remain. -/
def readBytes (n : Nat) (s : List Nat) : Except DecodeError (List Nat × List Nat) :=
  if n ≤ s.length then .ok (s.take n, s.drop n) else .error .unexpectedEOF

/-- Little-endian interpretation of a byte list. -/
def leNat (bs : List Nat) : Nat :=
  bs.foldr (fun b acc => b + 256 * acc) 0

/-- Read an `n`-byte little-endian unsigned integer. -/
def readUintLE (n : Nat) (s : List Nat) : Except DecodeError (Nat × List Nat) :=
  match readBytes n s with
  | .error e => .error e
  | .ok (bs, r) => .ok (leNat bs, r)

/-- Read a single byte from the stream. -/
def readByte (s : List Nat) : Except DecodeError (Nat × List Nat) :=
  match s with
  | [] => .error .unexpectedEOF
  | b :: r => .ok (b, r)

/-- Bitcoin compact-size varint decoder (`wire.ReadVarInt`): a one-byte
discriminant, then 0, 2, 4 or 8 further little-endian bytes; non-minimal
encodings are rejected as non-canonical. -/
def readVarInt (s : List Nat) : Except DecodeError (Nat × List Nat) :=
  match readByte s with
  | .error e => .error e
  | .ok (d, r) =>
    if d = 0xff then
      match readUintLE 8 r with
      | .error e => .error e
      | .ok (v, r2) => if v < 0x100000000 then .error .nonCanonicalVarInt else .ok (v, r2)
    else if d = 0xfe then
      match readUintLE 4 r with
      | .error e => .error e
      | .ok (v, r2) => if v < 0x10000 then .error .nonCanonicalVarInt else .ok (v, r2)
    else if d = 0xfd then
      match readUintLE 2 r with
      | .error e => .error e
      | .ok (v, r2) => if v < 0xfd then .error .nonCanonicalVarInt else .ok (v, r2)
    else .ok (d, r)

/-- Number of bytes of the canonical compact-size encoding of `v`. -/
def varIntSize (v : Nat) : Nat :=
  if v < 0xfd then 1 else if v < 0x10000 then 3 else if v < 0x100000000 then 5 else 9

/-- `wire.BlockHeader.Deserialize`: the fixed 80-byte Bitcoin header
(version 4, previous hash 32, merkle root 32, time 4, bits 4, nonce 4). -/
def deserializeBlockHeader (s : List Nat) :
    Except DecodeError (BlockHeader × List Nat) :=
  match readUintLE 4 s with
  | .error e => .error e
  | .ok (ver, r1) =>
    match readBytes 32 r1 with
    | .error e => .error e
    | .ok (prev, r2) =>
      match readBytes 32 r2 with
      | .error e => .error e
      | .ok (merkle, r3) =>
        match readUintLE 4 r3 with
        | .error e => .error e
        | .ok (time, r4) =>
          match readUintLE 4 r4 with
          | .error e => .error e
          | .ok (bits, r5) =>
            match readUintLE 4 r5 with
            | .error e => .error e
            | .ok (nonce, r6) =>
              .ok ({ version := ver, prevBlock := prev, merkleRoot := merkle,
                     timestamp := time, bits := bits, nonce := nonce }, r6)

/-- `parseBlockHeader` (indexchainparser.go lines 207-227): decode the
fixed header; when the nonce is zero additionally read a compact-size
signature length and that many signature bytes, discarding them. -/
def parseBlockHeader (s : List Nat) :
    Except DecodeError (BlockHeader × List Nat) :=
  match deserializeBlockHeader s with
  | .error e => .error e
  | .ok (h, r) =>
    if h.nonce = 0 then
      match readVarInt r with
      | .error e => .error e
      | .ok (sigLength, r2) =>
        match readBytes sigLength r2 with
        | .error e => .error e
        | .ok (_, r3) => .ok (h, r3)
    else .ok (h, r)

/-- The per-input rewrite inside `parseIndexTx` (lines 196-201): an input
whose `Txid` equals `SpendTxID` has the sentinel moved into `Coinbase`,
its `Txid` cleared, and its `Sequence` and `Vout` reset to zero. -/
def normalizeVin (v : Vin) : Vin :=
  if v.Txid = SpendTxID then
    { v with Coinbase := v.Txid, Txid := "", Sequence := 0, Vout := 0 }
  else v

/-- `parseIndexTx` (lines 190-205): rewrite every sentinel spend input of
the transaction; in Go this mutates `tx.Vin` in place and always returns
a nil error, so it is embedded as a total function on transactions. -/
def parseIndexTx (tx : Tx) : Tx :=
  { tx with Vin := tx.Vin.map normalizeVin }

/-- The transaction-decoding loop of `ParseBlock` (lines 141-156): decode
`n` transactions one after the other with the external wire decoder
(`wire.MsgTx.BtcDecode` followed by `TxFromMsgTx`, abstracted as
`txDecode`), applying `parseIndexTx` to each. -/
def parseTxs (txDecode : List Nat → Except DecodeError (Tx × List Nat)) :
    Nat → List Nat → Except DecodeError (List Tx × List Nat)
  | 0, s => .ok ([], s)
  | Nat.succ n, s =>
    match txDecode s with
    | .error e => .error e
    | .ok (t, r) =>
      match parseTxs txDecode n r with
      | .error e => .error e
      | .ok (ts, r2) => .ok (parseIndexTx t :: ts, r2)

/-- The reading phase of `ParseBlock` (lines 126-156): header, varint
transaction count, then that many transactions; the final component is
the unread remainder of the buffer. -/
def parseBlockAux (txDecode : List Nat → Except DecodeError (Tx × List Nat))
    (b : List Nat) : Except DecodeError (BlockHeader × List Tx × List Nat) :=
  match parseBlockHeader b with
  | .error e => .error e
  | .ok (h, r) =>
    match readVarInt r with
    | .error e => .error e
    | .ok (ntx, r2) =>
      match parseTxs txDecode ntx r2 with
      | .error e => .error e
      | .ok (txs, r3) => .ok (h, txs, r3)

/-- `ParseBlock` (lines 126-165): assemble the block from the reading
phase, recording the full buffer length as `Size` and the header
timestamp (epoch seconds, `header.Timestamp.Unix()`) as `Time`. -/
def ParseBlock (txDecode : List Nat → Except DecodeError (Tx × List Nat))
    (b : List Nat) : Except DecodeError Block :=
  match parseBlockAux txDecode b with
  | .error e => .error e
  | .ok (h, txs, _) => .ok { Size := b.length, Time := h.timestamp, Txs := txs }

/-- `GetAddressesFromAddrDesc` (lines 97-113): a non-empty descriptor
whose first byte is one of the four reserved opcodes resolves to a fixed
label with `searchable = false` and a nil error; everything else is
delegated to the external `OutputScriptToAddressesFunc`, abstracted as
the parameter `resolver`. -/
def GetAddressesFromAddrDesc
    (resolver : List Nat → List String × Bool × Option DecodeError)
    (addrDesc : List Nat) : List String × Bool × Option DecodeError :=
  match addrDesc with
  | b :: _ =>
    if b = OpZeroCoinMint then (["Zeromint"], false, none)
    else if b = OpZeroCoinSpend then (["Zerospend"], false, none)
    else if b = OpSigmaMint then (["Sigmamint"], false, none)
    else if b = OpSigmaSpend then (["Sigmaspend"], false, none)
    else resolver addrDesc
  | [] => resolver addrDesc

/-- The per-output conversion loop of `ParseTxFromJson` (lines 175-183):
convert each output's transient decimal `JsonValue` to the integer
satoshi amount with the external `AmountToBigInt` (abstracted as
`amount`) and clear `JsonValue`; the first failure aborts. -/
def convertVouts (amount : String → Except DecodeError Int) :
    List Vout → Except DecodeError (List Vout)
  | [] => .ok []
  | v :: vs =>
    match amount v.JsonValue with
    | .error e => .error e
    | .ok sat =>
      match convertVouts amount vs with
      | .error e => .error e
      | .ok ws => .ok ({ v with ValueSat := sat, JsonValue := "" } :: ws)

/-- `ParseTxFromJson` (lines 168-188): unmarshal the JSON message with
the external `json.Unmarshal` (abstracted as `unmarshal`), convert every
output amount, then apply `parseIndexTx`. -/
def ParseTxFromJson (unmarshal : String → Except DecodeError Tx)
    (amount : String → Except DecodeError Int) (msg : String) :
    Except DecodeError Tx :=
  match unmarshal msg with
  | .error e => .error e
  | .ok tx =>
    match convertVouts amount tx.Vout with
    | .error e => .error e
    | .ok vouts => .ok (parseIndexTx { tx with Vout := vouts })

/-- Parse a non-empty list of decimal digit characters as a natural. -/
def digitsToNat : List Char → Option Nat
  | [] => none
  | cs => cs.foldl (fun acc c =>
      match acc with
      | none => none
      | some n => if c.isDigit then some (n * 10 + (c.toNat - 48)) else none)
      (some 0)

/-- Split a character list at occurrences of the dot character. -/
def splitOnDot : List Char → List (List Char)
  | [] => [[]]
  | c :: cs =>
    if c = '.' then [] :: splitOnDot cs
    else
      match splitOnDot cs with
      | [] => [[c]]
      | g :: gs => (c :: g) :: gs

/-- Modelled from the spec: the external decimal-string-to-integer amount
conversion (`AmountToBigInt` of the base Bitcoin parser, which is code of
this repository outside src/).  Per the spec it converts a decimal amount
representation into the integer satoshi amount for a chain with the given
number of decimal places; for example "1.5" with 8 decimal places yields
150000000. -/
def amountToBigInt (decimals : Nat) (s : String) : Except DecodeError Int :=
  match splitOnDot s.toList with
  | [ip] =>
    match digitsToNat ip with
    | some n => .ok ((n * 10 ^ decimals : Nat) : Int)
    | none => .error (.external "invalid amount")
  | [ip, fp] =>
    if 0 < fp.length ∧ fp.length ≤ decimals then
      match digitsToNat ip, digitsToNat fp with
      | some n, some f =>
        .ok ((n * 10 ^ decimals + f * 10 ^ (decimals - fp.length) : Nat) : Int)
      | _, _ => .error (.external "invalid amount")
    else .error (.external "invalid amount")
  | _ => .error (.external "invalid amount")

/-! ### Concrete sample values used to exercise the definitions -/

/-- A transaction-decoder stand-in for vectors whose transaction count is
zero (it is then never invoked) or whose decode is meant to fail. -/
def failDecode : List Nat → Except DecodeError (Tx × List Nat) :=
  fun _ => .error (.external "unused")

/-- 80 header bytes of a proof-of-work block: nonce 1, all else zero. -/
def hdrPoW : List Nat := List.replicate 76 0 ++ [1, 0, 0, 0]

/-- 80 header bytes of a proof-of-stake block: timestamp 350, nonce 0. -/
def hdrPoS : List Nat := List.replicate 68 0 ++ [94, 1, 0, 0] ++ List.replicate 8 0

/-- Decoded form of `hdrPoS`. -/
def hdrPoSDecoded : BlockHeader :=
  { version := 0, prevBlock := List.replicate 32 0, merkleRoot := List.replicate 32 0,
    timestamp := 350, bits := 0, nonce := 0 }

/-- Decoded form of `hdrPoW`. -/
def hdrPoWDecoded : BlockHeader :=
  { version := 0, prevBlock := List.replicate 32 0, merkleRoot := List.replicate 32 0,
    timestamp := 0, bits := 0, nonce := 1 }

/-- 85-byte block buffer: PoS header, one-byte varint trailer length 3,
three trailer bytes, transaction count 0. -/
def blockBuf85 : List Nat := hdrPoS ++ [3, 9, 9, 9, 0]

/-- `blockBuf85` with one trailing junk byte appended. -/
def blockBuf86 : List Nat := blockBuf85 ++ [7]

/-- A sentinel spend input carrying nonzero index/sequence and script data. -/
def vinSpend : Vin :=
  { Coinbase := "", Txid := SpendTxID, Vout := 2, ScriptSigHex := "ab",
    Sequence := 5, Addresses := ["addr1"] }

/-- An ordinary input whose previous-transaction-id is a real hash. -/
def vinNormal : Vin :=
  { Coinbase := "", Txid := "ff00", Vout := 1, ScriptSigHex := "cd",
    Sequence := 7, Addresses := [] }

/-- A sample output with a transient decimal amount of "1.5". -/
def voutSample : Vout :=
  { ValueSat := 0, JsonValue := "1.5", N := 0, ScriptPubKeyHex := "51" }

/-- A sample transaction with one sentinel input and one ordinary input. -/
def txSample : Tx :=
  { Hex := "raw", Txid := "t1", Version := 1, LockTime := 0, Time := 10,
    Blocktime := 11, Vin := [vinSpend, vinNormal], Vout := [voutSample] }

/-- A sample generic script-to-address resolver. -/
def genericResolver : List Nat → List String × Bool × Option DecodeError :=
  fun _ => (["generic"], true, none)

/-! ### Stream-consumption lemmas -/

theorem readBytes_ok {n : Nat} {s bs r : List Nat}
    (h : readBytes n s = .ok (bs, r)) :
    bs = s.take n ∧ r = s.drop n ∧ n ≤ s.length := by
  unfold readBytes at h
  split at h
  · simp only [Except.ok.injEq, Prod.mk.injEq] at h
    exact ⟨h.1.symm, h.2.symm, by assumption⟩
  · exact Except.noConfusion h

theorem readBytes_err {n : Nat} {s : List Nat} (h : s.length < n) :
    readBytes n s = .error .unexpectedEOF := by
  unfold readBytes
  rw [if_neg]
  omega

theorem readUintLE_ok {n : Nat} {s : List Nat} {v : Nat} {r : List Nat}
    (h : readUintLE n s = .ok (v, r)) :
    v = leNat (s.take n) ∧ r = s.drop n ∧ n ≤ s.length := by
  unfold readUintLE at h
  cases hrb : readBytes n s with
  | error e => rw [hrb] at h; exact Except.noConfusion h
  | ok br =>
    obtain ⟨bs, r0⟩ := br
    rw [hrb] at h
    simp only [Except.ok.injEq, Prod.mk.injEq] at h
    obtain ⟨h1, h2, h3⟩ := readBytes_ok hrb
    exact ⟨h.1.symm.trans (by rw [h1]), h.2.symm.trans h2, h3⟩

theorem leNat_lt : ∀ {bs : List Nat}, (∀ b ∈ bs, b < 256) →
    leNat bs < 256 ^ bs.length
  | [], _ => by simp [leNat]
  | b :: bs, h => by
    have hb : b < 256 := h b (List.mem_cons_self b bs)
    have ih : leNat bs < 256 ^ bs.length :=
      leNat_lt (fun x hx => h x (List.mem_cons_of_mem b hx))
    have hcons : leNat (b :: bs) = b + 256 * leNat bs := rfl
    rw [hcons, List.length_cons, pow_succ]
    calc b + 256 * leNat bs < 256 * (leNat bs + 1) := by omega
      _ ≤ 256 * 256 ^ bs.length := Nat.mul_le_mul_left 256 ih
      _ = 256 ^ bs.length * 256 := by ring

theorem readVarInt_ok {s : List Nat} {v : Nat} {r : List Nat}
    (hb : ∀ b ∈ s, b < 256) (h : readVarInt s = .ok (v, r)) :
    r = s.drop (varIntSize v) ∧ varIntSize v ≤ s.length := by
  cases s with
  | nil => exact Except.noConfusion h
  | cons b t =>
    have hb256 : b < 256 := hb b (List.mem_cons_self b t)
    have hbt : ∀ x ∈ t, x < 256 := fun x hx => hb x (List.mem_cons_of_mem b hx)
    simp only [readVarInt, readByte] at h
    by_cases h255 : b = 255
    · rw [if_pos (by omega : b = 0xff)] at h
      split at h
      next e heq => exact Except.noConfusion h
      next v0 r2 heq =>
        obtain ⟨hv0, hr2, hlen⟩ := readUintLE_ok heq
        split at h
        · exact Except.noConfusion h
        · simp only [Except.ok.injEq, Prod.mk.injEq] at h
          obtain ⟨hv, hr⟩ := h
          have hge : ¬ v0 < 0x100000000 := by assumption
          have hsize : varIntSize v = 9 := by
            unfold varIntSize
            rw [if_neg (by omega : ¬ v < 0xfd), if_neg (by omega : ¬ v < 0x10000),
              if_neg (by omega : ¬ v < 0x100000000)]
          rw [hsize, hr.symm, hr2]
          constructor
          · rfl
          · simp only [List.length_cons]; omega
    · rw [if_neg (by omega : ¬ b = 0xff)] at h
      by_cases h254 : b = 254
      · rw [if_pos (by omega : b = 0xfe)] at h
        split at h
        next e heq => exact Except.noConfusion h
        next v0 r2 heq =>
          obtain ⟨hv0, hr2, hlen⟩ := readUintLE_ok heq
          split at h
          · exact Except.noConfusion h
          · simp only [Except.ok.injEq, Prod.mk.injEq] at h
            obtain ⟨hv, hr⟩ := h
            have hge : ¬ v0 < 0x10000 := by assumption
            have hup : v0 < 256 ^ 4 := by
              rw [hv0]
              calc leNat (t.take 4) < 256 ^ (t.take 4).length :=
                    leNat_lt (fun x hx => hbt x (List.mem_of_mem_take hx))
                _ ≤ 256 ^ 4 := by
                    apply Nat.pow_le_pow_right (by omega)
                    exact List.length_take_le 4 t
            have hsize : varIntSize v = 5 := by
              unfold varIntSize
              rw [if_neg (by omega : ¬ v < 0xfd), if_neg (by omega : ¬ v < 0x10000),
                if_pos (by norm_num at hup ⊢; omega : v < 0x100000000)]
            rw [hsize, hr.symm, hr2]
            constructor
            · rfl
            · simp only [List.length_cons]; omega
      · rw [if_neg (by omega : ¬ b = 0xfe)] at h
        by_cases h253 : b = 253
        · rw [if_pos (by omega : b = 0xfd)] at h
          split at h
          next e heq => exact Except.noConfusion h
          next v0 r2 heq =>
            obtain ⟨hv0, hr2, hlen⟩ := readUintLE_ok heq
            split at h
            · exact Except.noConfusion h
            · simp only [Except.ok.injEq, Prod.mk.injEq] at h
              obtain ⟨hv, hr⟩ := h
              have hge : ¬ v0 < 0xfd := by assumption
              have hup : v0 < 256 ^ 2 := by
                rw [hv0]
                calc leNat (t.take 2) < 256 ^ (t.take 2).length :=
                      leNat_lt (fun x hx => hbt x (List.mem_of_mem_take hx))
                  _ ≤ 256 ^ 2 := by
                      apply Nat.pow_le_pow_right (by omega)
                      exact List.length_take_le 2 t
              have hsize : varIntSize v = 3 := by
                unfold varIntSize
                rw [if_neg (by omega : ¬ v < 0xfd),
                  if_pos (by norm_num at hup ⊢; omega : v < 0x10000)]
              rw [hsize, hr.symm, hr2]
              constructor
              · rfl
              · simp only [List.length_cons]; omega
        · rw [if_neg (by omega : ¬ b = 0xfd)] at h
          simp only [Except.ok.injEq, Prod.mk.injEq] at h
          obtain ⟨hv, hr⟩ := h
          have hsize : varIntSize v = 1 := by
            unfold varIntSize
            rw [if_pos (by omega : v < 0xfd)]
          rw [hsize, hr.symm]
          constructor
          · rfl
          · simp only [List.length_cons]; omega

theorem deserializeBlockHeader_ok {s : List Nat} {h : BlockHeader} {r : List Nat}
    (hok : deserializeBlockHeader s = .ok (h, r)) :
    r = s.drop 80 ∧ 80 ≤ s.length := by
  unfold deserializeBlockHeader at hok
  split at hok
  next e heq => exact Except.noConfusion hok
  next ver r1 heq1 =>
    split at hok
    next e heq => exact Except.noConfusion hok
    next prev r2 heq2 =>
      split at hok
      next e heq => exact Except.noConfusion hok
      next merkle r3 heq3 =>
        split at hok
        next e heq => exact Except.noConfusion hok
        next time r4 heq4 =>
          split at hok
          next e heq => exact Except.noConfusion hok
          next bits r5 heq5 =>
            split at hok
            next e heq => exact Except.noConfusion hok
            next nonce r6 heq6 =>
              simp only [Except.ok.injEq, Prod.mk.injEq] at hok
              obtain ⟨hh, hr⟩ := hok
              obtain ⟨_, hr1, hl1⟩ := readUintLE_ok heq1
              obtain ⟨_, hr2, hl2⟩ := readBytes_ok heq2
              obtain ⟨_, hr3, hl3⟩ := readBytes_ok heq3
              obtain ⟨_, hr4, hl4⟩ := readUintLE_ok heq4
              obtain ⟨_, hr5, hl5⟩ := readUintLE_ok heq5
              obtain ⟨_, hr6, hl6⟩ := readUintLE_ok heq6
              subst hr1 hr2 hr3 hr4 hr5 hr6
              constructor
              · rw [← hr]
                simp only [List.drop_drop]
              · simp only [List.length_drop] at hl2 hl3 hl4 hl5 hl6
                omega

theorem parseBlockHeader_ok_nonzero {s : List Nat} {h : BlockHeader}
    {rest : List Nat} (hok : parseBlockHeader s = .ok (h, rest))
    (hn : h.nonce ≠ 0) : rest = s.drop 80 ∧ 80 ≤ s.length := by
  unfold parseBlockHeader at hok
  split at hok
  next e heq => exact Except.noConfusion hok
  next h0 r heq =>
    split at hok
    · split at hok
      next e heq2 => exact Except.noConfusion hok
      next L r2 heq2 =>
        split at hok
        next e heq3 => exact Except.noConfusion hok
        next bs r3 heq3 =>
          simp only [Except.ok.injEq, Prod.mk.injEq] at hok
          obtain ⟨hh, hr⟩ := hok
          exact absurd (hh ▸ (by assumption : h0.nonce = 0)) hn
    · simp only [Except.ok.injEq, Prod.mk.injEq] at hok
      obtain ⟨hh, hr⟩ := hok
      subst hr
      exact deserializeBlockHeader_ok heq

theorem parseBlockHeader_ok_zero {s : List Nat} {h : BlockHeader}
    {rest : List Nat} (hb : ∀ b ∈ s, b < 256)
    (hok : parseBlockHeader s = .ok (h, rest)) (hn : h.nonce = 0) :
    ∃ L, readVarInt (s.drop 80) = .ok (L, s.drop (80 + varIntSize L)) ∧
      rest = s.drop (80 + varIntSize L + L) ∧
      80 + varIntSize L + L ≤ s.length := by
  unfold parseBlockHeader at hok
  split at hok
  next e heq => exact Except.noConfusion hok
  next h0 r heq =>
    obtain ⟨hr80, hs80⟩ := deserializeBlockHeader_ok heq
    split at hok
    · split at hok
      next e heq2 => exact Except.noConfusion hok
      next L r2 heq2 =>
        split at hok
        next e heq3 => exact Except.noConfusion hok
        next bs r3 heq3 =>
          simp only [Except.ok.injEq, Prod.mk.injEq] at hok
          obtain ⟨hh, hr⟩ := hok
          obtain ⟨hr2, hvlen⟩ := readVarInt_ok
            (fun x hx => hb x (List.drop_subset 80 s (hr80 ▸ hx))) heq2
          obtain ⟨_, hr3, hblen⟩ := readBytes_ok heq3
          refine ⟨L, ?_, ?_, ?_⟩
          · rw [← hr80, heq2, hr2, hr80, List.drop_drop]
          · rw [← hr, hr3, hr2, hr80, List.drop_drop, List.drop_drop]
            congr 1
            omega
          · rw [hr2, hr80] at hblen
            simp only [List.length_drop] at hblen
            rw [hr80] at hvlen
            simp only [List.length_drop] at hvlen
            omega
    · simp only [Except.ok.injEq, Prod.mk.injEq] at hok
      obtain ⟨hh, hr⟩ := hok
      exact absurd (hh ▸ hn) (by assumption)

theorem parseBlockHeader_varint_err {s : List Nat} {h : BlockHeader}
    {r : List Nat} {e : DecodeError}
    (hds : deserializeBlockHeader s = .ok (h, r)) (hn : h.nonce = 0)
    (hv : readVarInt r = .error e) : parseBlockHeader s = .error e := by
  simp [parseBlockHeader, hds, hn, hv]

theorem parseBlockHeader_trailer_err {s : List Nat} {h : BlockHeader}
    {r : List Nat} {L : Nat} {r2 : List Nat}
    (hds : deserializeBlockHeader s = .ok (h, r)) (hn : h.nonce = 0)
    (hv : readVarInt r = .ok (L, r2)) (hshort : r2.length < L) :
    parseBlockHeader s = .error .unexpectedEOF := by
  have hrb : readBytes L r2 = .error .unexpectedEOF := readBytes_err hshort
  simp [parseBlockHeader, hds, hn, hv, hrb]

/-! ### Normalizer lemmas -/

theorem normalizeVin_of_spend {v : Vin} (hv : v.Txid = SpendTxID) :
    normalizeVin v =
      { v with Coinbase := v.Txid, Txid := "", Sequence := 0, Vout := 0 } := by
  unfold normalizeVin
  rw [if_pos hv]

theorem normalizeVin_of_other {v : Vin} (hv : v.Txid ≠ SpendTxID) :
    normalizeVin v = v := by
  unfold normalizeVin
  rw [if_neg hv]

theorem normalizeVin_idem (v : Vin) :
    normalizeVin (normalizeVin v) = normalizeVin v := by
  by_cases hv : v.Txid = SpendTxID
  · rw [normalizeVin_of_spend hv]
    apply normalizeVin_of_other
    exact (by decide : ("" : String) ≠ SpendTxID)
  · rw [normalizeVin_of_other hv, normalizeVin_of_other hv]

theorem map_normalizeVin_idem (l : List Vin) :
    (l.map normalizeVin).map normalizeVin = l.map normalizeVin := by
  rw [List.map_map]
  exact List.map_congr_left (fun a _ => normalizeVin_idem a)

theorem parseIndexTx_idem (tx : Tx) :
    parseIndexTx (parseIndexTx tx) = parseIndexTx tx := by
  simp only [parseIndexTx, map_normalizeVin_idem]

/-! ### Transaction-loop and block lemmas -/

theorem parseTxs_ok (d : List Nat → Except DecodeError (Tx × List Nat)) :
    ∀ (n : Nat) (s : List Nat) (ts : List Tx) (r : List Nat),
      parseTxs d n s = .ok (ts, r) →
      ts.length = n ∧ ∀ t ∈ ts, parseIndexTx t = t := by
  intro n
  induction n with
  | zero =>
    intro s ts r h
    simp only [parseTxs, Except.ok.injEq, Prod.mk.injEq] at h
    obtain ⟨h1, h2⟩ := h
    subst h1
    exact ⟨rfl, by intro t ht; exact absurd ht (List.not_mem_nil t)⟩
  | succ n ih =>
    intro s ts r h
    simp only [parseTxs] at h
    split at h
    next e heq => exact Except.noConfusion h
    next t r0 heq =>
      split at h
      next e heq2 => exact Except.noConfusion h
      next ts0 r2 heq2 =>
        simp only [Except.ok.injEq, Prod.mk.injEq] at h
        obtain ⟨h1, h2⟩ := h
        obtain ⟨hlen, hnorm⟩ := ih r0 ts0 r2 heq2
        subst h1
        constructor
        · simp [hlen]
        · intro t2 ht2
          rcases List.mem_cons.mp ht2 with hc | hc
          · subst hc
            exact parseIndexTx_idem t
          · exact hnorm t2 hc

theorem parseBlockAux_ok {d : List Nat → Except DecodeError (Tx × List Nat)}
    {b : List Nat} {hdr : BlockHeader} {ts : List Tx} {rest : List Nat}
    (h : parseBlockAux d b = .ok (hdr, ts, rest)) :
    ∃ r ntx r2, parseBlockHeader b = .ok (hdr, r) ∧
      readVarInt r = .ok (ntx, r2) ∧ parseTxs d ntx r2 = .ok (ts, rest) := by
  unfold parseBlockAux at h
  split at h
  next e heq => exact Except.noConfusion h
  next h0 r heq =>
    split at h
    next e heq2 => exact Except.noConfusion h
    next ntx r2 heq2 =>
      split at h
      next e heq3 => exact Except.noConfusion h
      next ts0 r3 heq3 =>
        simp only [Except.ok.injEq, Prod.mk.injEq] at h
        obtain ⟨hh, ht, hr⟩ := h
        subst hh ht hr
        exact ⟨r, ntx, r2, heq, heq2, heq3⟩

theorem ParseBlock_of_aux {d : List Nat → Except DecodeError (Tx × List Nat)}
    {b : List Nat} {hdr : BlockHeader} {ts : List Tx} {rest : List Nat}
    (h : parseBlockAux d b = .ok (hdr, ts, rest)) :
    ParseBlock d b = .ok { Size := b.length, Time := hdr.timestamp, Txs := ts } := by
  simp [ParseBlock, h]

theorem ParseBlock_ok {d : List Nat → Except DecodeError (Tx × List Nat)}
    {b : List Nat} {blk : Block} (h : ParseBlock d b = .ok blk) :
    ∃ hdr ts rest, parseBlockAux d b = .ok (hdr, ts, rest) ∧
      blk = { Size := b.length, Time := hdr.timestamp, Txs := ts } := by
  unfold ParseBlock at h
  split at h
  next e heq => exact Except.noConfusion h
  next hdr ts rest heq =>
    simp only [Except.ok.injEq] at h
    exact ⟨hdr, ts, rest, heq, h.symm⟩

theorem ParseBlock_header_err {d : List Nat → Except DecodeError (Tx × List Nat)}
    {b : List Nat} {e : DecodeError} (h : parseBlockHeader b = .error e) :
    ParseBlock d b = .error e := by
  simp [ParseBlock, parseBlockAux, h]

theorem ParseBlock_count_err {d : List Nat → Except DecodeError (Tx × List Nat)}
    {b : List Nat} {hdr : BlockHeader} {r : List Nat} {e : DecodeError}
    (h1 : parseBlockHeader b = .ok (hdr, r)) (h2 : readVarInt r = .error e) :
    ParseBlock d b = .error e := by
  simp [ParseBlock, parseBlockAux, h1, h2]

theorem ParseBlock_tx_err {d : List Nat → Except DecodeError (Tx × List Nat)}
    {b : List Nat} {hdr : BlockHeader} {r : List Nat} {ntx : Nat}
    {r2 : List Nat} {e : DecodeError}
    (h1 : parseBlockHeader b = .ok (hdr, r)) (h2 : readVarInt r = .ok (ntx, r2))
    (h3 : parseTxs d ntx r2 = .error e) : ParseBlock d b = .error e := by
  simp [ParseBlock, parseBlockAux, h1, h2, h3]

theorem parseTxs_hd_err {d : List Nat → Except DecodeError (Tx × List Nat)}
    {n : Nat} {s : List Nat} {e : DecodeError} (h : d s = .error e) :
    parseTxs d (n + 1) s = .error e := by
  simp [parseTxs, h]

/-! ### JSON importer lemmas -/

theorem convertVouts_ok (amount : String → Except DecodeError Int) :
    ∀ (vs ws : List Vout), convertVouts amount vs = .ok ws →
      ws.length = vs.length ∧
      ∀ (i : Nat) (hi : i < vs.length) (hj : i < ws.length),
        (ws.get ⟨i, hj⟩).JsonValue = "" ∧
        amount ((vs.get ⟨i, hi⟩).JsonValue) = .ok ((ws.get ⟨i, hj⟩).ValueSat) ∧
        (ws.get ⟨i, hj⟩).N = (vs.get ⟨i, hi⟩).N ∧
        (ws.get ⟨i, hj⟩).ScriptPubKeyHex = (vs.get ⟨i, hi⟩).ScriptPubKeyHex := by
  intro vs
  induction vs with
  | nil =>
    intro ws h
    simp only [convertVouts, Except.ok.injEq] at h
    subst h
    exact ⟨rfl, fun i hi => absurd hi (by simp)⟩
  | cons v vt ih =>
    intro ws h
    simp only [convertVouts] at h
    split at h
    next e heq => exact Except.noConfusion h
    next sat heq =>
      split at h
      next e heq2 => exact Except.noConfusion h
      next ws0 heq2 =>
        simp only [Except.ok.injEq] at h
        subst h
        obtain ⟨hlen, hall⟩ := ih ws0 heq2
        constructor
        · simp [hlen]
        · intro i hi hj
          cases i with
          | zero => exact ⟨rfl, heq, rfl, rfl⟩
          | succ i =>
            have hi2 : i < vt.length := by
              simp only [List.length_cons] at hi
              omega
            have hj2 : i < ws0.length := by
              simp only [List.length_cons] at hj
              omega
            exact hall i hi2 hj2

theorem ParseTxFromJson_ok {unmarshal : String → Except DecodeError Tx}
    {amount : String → Except DecodeError Int} {msg : String} {txRaw res : Tx}
    (hu : unmarshal msg = .ok txRaw)
    (h : ParseTxFromJson unmarshal amount msg = .ok res) :
    ∃ vouts, convertVouts amount txRaw.Vout = .ok vouts ∧
      res = parseIndexTx { txRaw with Vout := vouts } := by
  simp only [ParseTxFromJson, hu] at h
  split at h
  next e heq => exact Except.noConfusion h
  next vouts heq =>
    simp only [Except.ok.injEq] at h
    exact ⟨vouts, heq, h.symm⟩

theorem ParseTxFromJson_unmarshal_err {unmarshal : String → Except DecodeError Tx}
    {amount : String → Except DecodeError Int} {msg : String} {e : DecodeError}
    (hu : unmarshal msg = .error e) :
    ParseTxFromJson unmarshal amount msg = .error e := by
  simp [ParseTxFromJson, hu]

theorem ParseTxFromJson_amount_err {unmarshal : String → Except DecodeError Tx}
    {amount : String → Except DecodeError Int} {msg : String} {txRaw : Tx}
    {e : DecodeError} (hu : unmarshal msg = .ok txRaw)
    (hc : convertVouts amount txRaw.Vout = .error e) :
    ParseTxFromJson unmarshal amount msg = .error e := by
  simp [ParseTxFromJson, hu, hc]

theorem convertVouts_hd_err {amount : String → Except DecodeError Int}
    {v : Vout} {vs : List Vout} {e : DecodeError}
    (h : amount v.JsonValue = .error e) :
    convertVouts amount (v :: vs) = .error e := by
  simp [convertVouts, h]

/-! ### Indexed access to normalized inputs -/

theorem parseIndexTx_vin_length (tx : Tx) :
    (parseIndexTx tx).Vin.length = tx.Vin.length := by
  simp [parseIndexTx]

theorem parseIndexTx_vin_get (tx : Tx) (i : Nat) (hi : i < tx.Vin.length)
    (hj : i < (parseIndexTx tx).Vin.length) :
    (parseIndexTx tx).Vin.get ⟨i, hj⟩ = normalizeVin (tx.Vin.get ⟨i, hi⟩) := by
  simp [parseIndexTx, List.get_eq_getElem, List.getElem_map]

/-! ### Claim theorems -/

/-- C1 (counterexample): the claim asserts the reserved sentinel
previous-transaction-id is the string of 68 hexadecimal zero characters
(34 bytes hex-decoded); in the code `SpendTxID` is not that string — it
has exactly 64 characters. -/
theorem spendTxID_not_68_zeros :
    SpendTxID ≠ String.mk (List.replicate 68 (Char.ofNat 48)) ∧
    SpendTxID.length = 64 := by
  constructor
  · decide
  · decide

/-- C1 (amended): the reserved sentinel previous-transaction-id is the
string of 64 hexadecimal zero characters (32 zero bytes hex-decoded, the
same length as a standard 32-byte hash), and the normalizer's rewrite
triggers exactly on inputs whose previous-transaction-id equals that
string: those inputs are rewritten into coinbase shape, every other
input is returned unchanged. -/
theorem spendTxID_sentinel_spec :
    SpendTxID = String.mk (List.replicate 64 (Char.ofNat 48)) ∧
    (∀ v : Vin, v.Txid = SpendTxID →
      normalizeVin v =
        { v with Coinbase := v.Txid, Txid := "", Sequence := 0, Vout := 0 }) ∧
    (∀ v : Vin, v.Txid ≠ SpendTxID → normalizeVin v = v) :=
  ⟨by decide, fun v hv => normalizeVin_of_spend hv,
   fun v hv => normalizeVin_of_other hv⟩

/-- C1 witness: the amended sentinel characterization applied at the
concrete inputs `vinSpend` and `vinNormal`. -/
theorem spendTxID_sentinel_spec_witness :
    normalizeVin vinSpend =
      { vinSpend with Coinbase := vinSpend.Txid, Txid := "", Sequence := 0, Vout := 0 } ∧
    normalizeVin vinNormal = vinNormal :=
  ⟨spendTxID_sentinel_spec.2.1 vinSpend rfl,
   spendTxID_sentinel_spec.2.2 vinNormal (by decide)⟩

/-- C2: after `parseIndexTx`, an input whose previous-transaction-id was
the sentinel has `Coinbase = SpendTxID`, empty `Txid`, `Vout = 0` and
`Sequence = 0`; an input whose previous-transaction-id was anything else
is unchanged. -/
theorem parseIndexTx_vin_rewrite (tx : Tx) (i : Nat) (hi : i < tx.Vin.length) :
    ∃ hj : i < (parseIndexTx tx).Vin.length,
      ((tx.Vin.get ⟨i, hi⟩).Txid = SpendTxID →
        ((parseIndexTx tx).Vin.get ⟨i, hj⟩).Coinbase = SpendTxID ∧
        ((parseIndexTx tx).Vin.get ⟨i, hj⟩).Txid = "" ∧
        ((parseIndexTx tx).Vin.get ⟨i, hj⟩).Vout = 0 ∧
        ((parseIndexTx tx).Vin.get ⟨i, hj⟩).Sequence = 0) ∧
      ((tx.Vin.get ⟨i, hi⟩).Txid ≠ SpendTxID →
        (parseIndexTx tx).Vin.get ⟨i, hj⟩ = tx.Vin.get ⟨i, hi⟩) := by
  have hj : i < (parseIndexTx tx).Vin.length := by
    rw [parseIndexTx_vin_length]
    exact hi
  refine ⟨hj, ?_, ?_⟩
  · intro hv
    rw [parseIndexTx_vin_get tx i hi hj, normalizeVin_of_spend hv]
    exact ⟨hv, rfl, rfl, rfl⟩
  · intro hv
    rw [parseIndexTx_vin_get tx i hi hj, normalizeVin_of_other hv]

/-- C2 witness: the rewrite applied at the concrete transaction
`txSample`, whose input 0 is a sentinel spend and input 1 is ordinary. -/
theorem parseIndexTx_vin_rewrite_witness :
    (∃ hj : 0 < (parseIndexTx txSample).Vin.length,
      ((parseIndexTx txSample).Vin.get ⟨0, hj⟩).Coinbase = SpendTxID ∧
      ((parseIndexTx txSample).Vin.get ⟨0, hj⟩).Txid = "" ∧
      ((parseIndexTx txSample).Vin.get ⟨0, hj⟩).Vout = 0 ∧
      ((parseIndexTx txSample).Vin.get ⟨0, hj⟩).Sequence = 0) ∧
    (∃ hj : 1 < (parseIndexTx txSample).Vin.length,
      (parseIndexTx txSample).Vin.get ⟨1, hj⟩ =
        txSample.Vin.get ⟨1, by decide⟩) := by
  constructor
  · obtain ⟨hj, h1, h2⟩ := parseIndexTx_vin_rewrite txSample 0 (by decide)
    exact ⟨hj, h1 (by decide)⟩
  · obtain ⟨hj, h1, h2⟩ := parseIndexTx_vin_rewrite txSample 1 (by decide)
    exact ⟨hj, h2 (by decide)⟩

/-- C3: a non-empty descriptor whose first byte is one of the four
reserved opcodes resolves to exactly the corresponding single label with
searchable = false and no error, for every generic resolver and whatever
the remaining bytes are (so the generic resolver is never consulted); an
empty descriptor, or any other first byte, yields exactly the generic
resolver's output. -/
theorem getAddressesFromAddrDesc_spec :
    (∀ (resolver : List Nat → List String × Bool × Option DecodeError)
       (rest : List Nat),
      GetAddressesFromAddrDesc resolver (OpZeroCoinMint :: rest) =
        (["Zeromint"], false, none) ∧
      GetAddressesFromAddrDesc resolver (OpZeroCoinSpend :: rest) =
        (["Zerospend"], false, none) ∧
      GetAddressesFromAddrDesc resolver (OpSigmaMint :: rest) =
        (["Sigmamint"], false, none) ∧
      GetAddressesFromAddrDesc resolver (OpSigmaSpend :: rest) =
        (["Sigmaspend"], false, none)) ∧
    (∀ resolver, GetAddressesFromAddrDesc resolver [] = resolver []) ∧
    (∀ (resolver : List Nat → List String × Bool × Option DecodeError)
       (b : Nat) (rest : List Nat),
      b ≠ OpZeroCoinMint → b ≠ OpZeroCoinSpend → b ≠ OpSigmaMint →
      b ≠ OpSigmaSpend →
      GetAddressesFromAddrDesc resolver (b :: rest) = resolver (b :: rest)) := by
  refine ⟨?_, ?_, ?_⟩
  · intro resolver rest
    refine ⟨?_, ?_, ?_, ?_⟩ <;>
      simp [GetAddressesFromAddrDesc, OpZeroCoinMint, OpZeroCoinSpend,
        OpSigmaMint, OpSigmaSpend]
  · intro resolver
    rfl
  · intro resolver b rest h1 h2 h3 h4
    simp only [GetAddressesFromAddrDesc]
    rw [if_neg h1, if_neg h2, if_neg h3, if_neg h4]

/-- C3 witness: resolution evaluated at a reserved-opcode descriptor, the
empty descriptor and an ordinary script descriptor, against the concrete
resolver `genericResolver`. -/
theorem getAddressesFromAddrDesc_spec_witness :
    GetAddressesFromAddrDesc genericResolver (OpZeroCoinMint :: [0x51]) =
      (["Zeromint"], false, none) ∧
    GetAddressesFromAddrDesc genericResolver [] = genericResolver [] ∧
    GetAddressesFromAddrDesc genericResolver (0x76 :: [0xa9]) =
      genericResolver (0x76 :: [0xa9]) :=
  ⟨(getAddressesFromAddrDesc_spec.1 genericResolver [0x51]).1,
   getAddressesFromAddrDesc_spec.2.1 genericResolver,
   getAddressesFromAddrDesc_spec.2.2 genericResolver 0x76 [0xa9]
     (by decide) (by decide) (by decide) (by decide)⟩

/-- C4: header decoding with nonzero nonce consumes exactly 80 bytes and
no trailer bytes, whatever follows; with zero nonce it additionally
consumes one compact-size varint carrying the trailer length L and then
exactly L trailer bytes, for a total of 80 + size(varint(L)) + L bytes,
and it fails with a decode error when the varint cannot be read or fewer
than L trailer bytes remain. -/
theorem parseBlockHeader_consumption_spec :
    (∀ (s : List Nat) (h : BlockHeader) (rest : List Nat),
      parseBlockHeader s = .ok (h, rest) → h.nonce ≠ 0 →
      rest = s.drop 80 ∧ 80 ≤ s.length) ∧
    (∀ (s : List Nat) (h : BlockHeader) (rest : List Nat),
      (∀ b ∈ s, b < 256) → parseBlockHeader s = .ok (h, rest) → h.nonce = 0 →
      ∃ L, readVarInt (s.drop 80) = .ok (L, s.drop (80 + varIntSize L)) ∧
        rest = s.drop (80 + varIntSize L + L) ∧
        80 + varIntSize L + L ≤ s.length) ∧
    (∀ (s : List Nat) (h : BlockHeader) (r : List Nat) (e : DecodeError),
      deserializeBlockHeader s = .ok (h, r) → h.nonce = 0 →
      readVarInt r = .error e → parseBlockHeader s = .error e) ∧
    (∀ (s : List Nat) (h : BlockHeader) (r : List Nat) (L : Nat)
       (r2 : List Nat),
      deserializeBlockHeader s = .ok (h, r) → h.nonce = 0 →
      readVarInt r = .ok (L, r2) → r2.length < L →
      parseBlockHeader s = .error .unexpectedEOF) :=
  ⟨fun _ _ _ hok hn => parseBlockHeader_ok_nonzero hok hn,
   fun _ _ _ hb hok hn => parseBlockHeader_ok_zero hb hok hn,
   fun _ _ _ _ hds hn hv => parseBlockHeader_varint_err hds hn hv,
   fun _ _ _ _ _ hds hn hv hs => parseBlockHeader_trailer_err hds hn hv hs⟩

/-- C4 witness: consumption evaluated on four concrete header streams:
a PoW header followed by trailer-shaped bytes, the 85-byte PoS block
buffer, a PoS header with no varint bytes, and a PoS header with a
truncated trailer. -/
theorem parseBlockHeader_consumption_spec_witness :
    (([9, 9] : List Nat) = (hdrPoW ++ [9, 9]).drop 80 ∧
      80 ≤ (hdrPoW ++ [9, 9]).length) ∧
    (∃ L, readVarInt (blockBuf85.drop 80) =
        .ok (L, blockBuf85.drop (80 + varIntSize L)) ∧
      ([0] : List Nat) = blockBuf85.drop (80 + varIntSize L + L) ∧
      80 + varIntSize L + L ≤ blockBuf85.length) ∧
    parseBlockHeader hdrPoS = .error .unexpectedEOF ∧
    parseBlockHeader (hdrPoS ++ [3, 9]) = .error .unexpectedEOF :=
  ⟨parseBlockHeader_consumption_spec.1 (hdrPoW ++ [9, 9]) hdrPoWDecoded
      [9, 9] rfl (by decide),
   parseBlockHeader_consumption_spec.2.1 blockBuf85 hdrPoSDecoded [0]
      (by decide) rfl rfl,
   parseBlockHeader_consumption_spec.2.2.1 hdrPoS hdrPoSDecoded []
      .unexpectedEOF rfl rfl rfl,
   parseBlockHeader_consumption_spec.2.2.2 (hdrPoS ++ [3, 9]) hdrPoSDecoded
      [3, 9] 3 [9] rfl rfl rfl (by decide)⟩

/-- C5: a successfully decoded block contains exactly the number of
transactions declared by the varint count, in stream order, each one a
normalizer image (hence a `parseIndexTx` fixed point); its `Size` is the
full buffer length and its `Time` the header timestamp; concretely, the
85-byte buffer `blockBuf85` (PoS header with timestamp 350, trailer
length 3, three trailer bytes, count 0) decodes to a block with zero
transactions, size 85 and time 350. -/
theorem parseBlock_result_spec :
    (∀ (d : List Nat → Except DecodeError (Tx × List Nat)) (b : List Nat)
       (blk : Block),
      ParseBlock d b = .ok blk →
      blk.Size = b.length ∧
      ∃ hdr ntx r r2 rest,
        parseBlockHeader b = .ok (hdr, r) ∧
        readVarInt r = .ok (ntx, r2) ∧
        parseTxs d ntx r2 = .ok (blk.Txs, rest) ∧
        blk.Time = hdr.timestamp ∧
        blk.Txs.length = ntx ∧
        ∀ t ∈ blk.Txs, parseIndexTx t = t) ∧
    (∀ d, ParseBlock d blockBuf85 = .ok { Size := 85, Time := 350, Txs := [] }) := by
  constructor
  · intro d b blk h
    obtain ⟨hdr, ts, rest, haux, hblk⟩ := ParseBlock_ok h
    obtain ⟨r, ntx, r2, h1, h2, h3⟩ := parseBlockAux_ok haux
    obtain ⟨hlen, hnorm⟩ := parseTxs_ok d ntx r2 ts rest h3
    subst hblk
    exact ⟨rfl, hdr, ntx, r, r2, rest, h1, h2, h3, rfl, hlen, hnorm⟩
  · intro d
    have haux : parseBlockAux d blockBuf85 =
        .ok (hdrPoSDecoded, ([] : List Tx), ([] : List Nat)) := rfl
    exact ParseBlock_of_aux haux

/-- C5 witness: the decoded-block characterization applied to the block
decode of `blockBuf85` with the stand-in transaction decoder. -/
theorem parseBlock_result_spec_witness :
    ({ Size := 85, Time := 350, Txs := [] } : Block).Size = blockBuf85.length ∧
    ∃ hdr ntx r r2 rest,
      parseBlockHeader blockBuf85 = .ok (hdr, r) ∧
      readVarInt r = .ok (ntx, r2) ∧
      parseTxs failDecode ntx r2 =
        .ok (({ Size := 85, Time := 350, Txs := [] } : Block).Txs, rest) ∧
      ({ Size := 85, Time := 350, Txs := [] } : Block).Time = hdr.timestamp ∧
      ({ Size := 85, Time := 350, Txs := [] } : Block).Txs.length = ntx ∧
      ∀ t ∈ ({ Size := 85, Time := 350, Txs := [] } : Block).Txs,
        parseIndexTx t = t :=
  parseBlock_result_spec.1 failDecode blockBuf85
    { Size := 85, Time := 350, Txs := [] } (by rfl)

/-- C6 (counterexample): the claim says a buffer that decodes
successfully has no bytes left over; yet `blockBuf86` — a valid block
plus one junk byte — decodes successfully while the reading phase leaves
the nonempty remainder `[7]` unread. -/
theorem parseBlock_leftover_counterexample :
    ParseBlock failDecode blockBuf86 =
      .ok { Size := 86, Time := 350, Txs := [] } ∧
    parseBlockAux failDecode blockBuf86 = .ok (hdrPoSDecoded, [], [7]) ∧
    ([7] : List Nat) ≠ [] :=
  ⟨rfl, rfl, by decide⟩

/-- C6 (amended): a decode call reads the header, the transaction count
and the declared transactions and then returns; it need not consume the
whole buffer — whenever the reading phase succeeds, with empty or
nonempty remainder, `ParseBlock` returns the block built from the read
prefix, with `Size` still the full buffer length. -/
theorem parseBlock_consumes_prefix
    (d : List Nat → Except DecodeError (Tx × List Nat)) (b : List Nat)
    (hdr : BlockHeader) (ts : List Tx) (rest : List Nat)
    (h : parseBlockAux d b = .ok (hdr, ts, rest)) :
    ParseBlock d b = .ok { Size := b.length, Time := hdr.timestamp, Txs := ts } :=
  ParseBlock_of_aux h

/-- C6 witness: the amended statement applied to `blockBuf86`, whose
reading phase leaves the remainder `[7]`. -/
theorem parseBlock_consumes_prefix_witness :
    ParseBlock failDecode blockBuf86 =
      .ok { Size := blockBuf86.length, Time := hdrPoSDecoded.timestamp,
            Txs := [] } :=
  parseBlock_consumes_prefix failDecode blockBuf86 hdrPoSDecoded [] [7] rfl

/-- C7: the Transaction Normalizer is idempotent: normalizing twice
yields the same transaction as normalizing once. -/
theorem parseIndexTx_idempotent (tx : Tx) :
    parseIndexTx (parseIndexTx tx) = parseIndexTx tx :=
  parseIndexTx_idem tx

/-- C8: block decoding is fail-fast and atomic: a failure of the header
decode, of the count varint, or of the transaction loop (in particular
of the external transaction decoder at the head of the loop) makes
`ParseBlock` return exactly that error, and no block value. -/
theorem parseBlock_error_propagation :
    (∀ (d : List Nat → Except DecodeError (Tx × List Nat)) (b : List Nat)
       (e : DecodeError),
      parseBlockHeader b = .error e → ParseBlock d b = .error e) ∧
    (∀ (d : List Nat → Except DecodeError (Tx × List Nat)) (b : List Nat)
       (hdr : BlockHeader) (r : List Nat) (e : DecodeError),
      parseBlockHeader b = .ok (hdr, r) → readVarInt r = .error e →
      ParseBlock d b = .error e) ∧
    (∀ (d : List Nat → Except DecodeError (Tx × List Nat)) (b : List Nat)
       (hdr : BlockHeader) (r : List Nat) (ntx : Nat) (r2 : List Nat)
       (e : DecodeError),
      parseBlockHeader b = .ok (hdr, r) → readVarInt r = .ok (ntx, r2) →
      parseTxs d ntx r2 = .error e → ParseBlock d b = .error e) ∧
    (∀ (d : List Nat → Except DecodeError (Tx × List Nat)) (n : Nat)
       (s : List Nat) (e : DecodeError),
      d s = .error e → parseTxs d (n + 1) s = .error e) :=
  ⟨fun _ _ _ h => ParseBlock_header_err h,
   fun _ _ _ _ _ h1 h2 => ParseBlock_count_err h1 h2,
   fun _ _ _ _ _ _ _ h1 h2 h3 => ParseBlock_tx_err h1 h2 h3,
   fun _ _ _ _ h => parseTxs_hd_err h⟩

/-- C8 witness: error propagation evaluated on concrete failing buffers:
an empty buffer (header failure), a bare PoW header (count failure), and
a PoW header declaring one transaction with a failing decoder
(transaction failure). -/
theorem parseBlock_error_propagation_witness :
    ParseBlock failDecode [] = .error .unexpectedEOF ∧
    ParseBlock failDecode hdrPoW = .error .unexpectedEOF ∧
    parseTxs failDecode 1 [] = .error (.external "unused") ∧
    ParseBlock failDecode (hdrPoW ++ [1]) = .error (.external "unused") := by
  have h4 := parseBlock_error_propagation.2.2.2 failDecode 0 []
    (.external "unused") rfl
  exact ⟨parseBlock_error_propagation.1 failDecode [] .unexpectedEOF rfl,
    parseBlock_error_propagation.2.1 failDecode hdrPoW hdrPoWDecoded []
      .unexpectedEOF rfl rfl,
    h4,
    parseBlock_error_propagation.2.2.1 failDecode (hdrPoW ++ [1])
      hdrPoWDecoded [1] 1 [] (.external "unused") rfl rfl h4⟩

/-- C9: a successfully imported JSON transaction has every output's
decimal amount converted to the integer satoshi amount by the external
amount routine with the transient decimal field cleared, and the
normalizer applied to the result; the import propagates unmarshalling
failures and amount-conversion failures; concretely an output with
decimal amount "1.5" on an 8-decimal-place chain yields satoshi amount
150000000 and an empty decimal field. -/
theorem parseTxFromJson_spec :
    (∀ (unmarshal : String → Except DecodeError Tx)
       (amount : String → Except DecodeError Int) (msg : String)
       (txRaw res : Tx),
      unmarshal msg = .ok txRaw →
      ParseTxFromJson unmarshal amount msg = .ok res →
      ∃ vouts, convertVouts amount txRaw.Vout = .ok vouts ∧
        res = parseIndexTx { txRaw with Vout := vouts } ∧
        vouts.length = txRaw.Vout.length ∧
        ∀ (i : Nat) (hi : i < txRaw.Vout.length) (hj : i < vouts.length),
          (vouts.get ⟨i, hj⟩).JsonValue = "" ∧
          amount ((txRaw.Vout.get ⟨i, hi⟩).JsonValue) =
            .ok ((vouts.get ⟨i, hj⟩).ValueSat)) ∧
    (∀ (unmarshal : String → Except DecodeError Tx)
       (amount : String → Except DecodeError Int) (msg : String)
       (e : DecodeError),
      unmarshal msg = .error e →
      ParseTxFromJson unmarshal amount msg = .error e) ∧
    (∀ (unmarshal : String → Except DecodeError Tx)
       (amount : String → Except DecodeError Int) (msg : String)
       (txRaw : Tx) (e : DecodeError),
      unmarshal msg = .ok txRaw →
      convertVouts amount txRaw.Vout = .error e →
      ParseTxFromJson unmarshal amount msg = .error e) ∧
    (∀ (amount : String → Except DecodeError Int) (v : Vout)
       (vs : List Vout) (e : DecodeError),
      amount v.JsonValue = .error e →
      convertVouts amount (v :: vs) = .error e) ∧
    amountToBigInt 8 "1.5" = .ok 150000000 ∧
    (∃ res, ParseTxFromJson (fun _ => .ok txSample) (amountToBigInt 8) "m" =
        .ok res ∧
      res.Vout = [{ ValueSat := 150000000, JsonValue := "", N := 0,
                    ScriptPubKeyHex := "51" }]) := by
  refine ⟨?_, ?_, ?_, ?_, rfl, ?_⟩
  · intro unmarshal amount msg txRaw res hu h
    obtain ⟨vouts, hc, hres⟩ := ParseTxFromJson_ok hu h
    obtain ⟨hlen, hall⟩ := convertVouts_ok amount txRaw.Vout vouts hc
    exact ⟨vouts, hc, hres, hlen,
      fun i hi hj => ⟨(hall i hi hj).1, (hall i hi hj).2.1⟩⟩
  · intro unmarshal amount msg e hu
    exact ParseTxFromJson_unmarshal_err hu
  · intro unmarshal amount msg txRaw e hu hc
    exact ParseTxFromJson_amount_err hu hc
  · intro amount v vs e h
    exact convertVouts_hd_err h
  · exact ⟨parseIndexTx { txSample with
      Vout := [{ voutSample with ValueSat := 150000000, JsonValue := "" }] },
      rfl, rfl⟩

/-- C9 witness: the import characterization applied to the concrete
JSON-shaped transaction `txSample` with the 8-decimal amount routine. -/
theorem parseTxFromJson_spec_witness :
    ∃ vouts, convertVouts (amountToBigInt 8) txSample.Vout = .ok vouts ∧
      parseIndexTx { txSample with
          Vout := [{ voutSample with ValueSat := 150000000, JsonValue := "" }] } =
        parseIndexTx { txSample with Vout := vouts } ∧
      vouts.length = txSample.Vout.length ∧
      ∀ (i : Nat) (hi : i < txSample.Vout.length) (hj : i < vouts.length),
        (vouts.get ⟨i, hj⟩).JsonValue = "" ∧
        amountToBigInt 8 ((txSample.Vout.get ⟨i, hi⟩).JsonValue) =
          .ok ((vouts.get ⟨i, hj⟩).ValueSat) :=
  parseTxFromJson_spec.1 (fun _ => .ok txSample) (amountToBigInt 8) "m"
    txSample
    (parseIndexTx { txSample with
      Vout := [{ voutSample with ValueSat := 150000000, JsonValue := "" }] })
    rfl rfl

/-- C10: the normalizer leaves `Vout` and every non-`Vin` field of the
transaction unchanged, preserves the number of inputs, and for every
input (rewritten or not) leaves the script data and address fields
unchanged. -/
theorem parseIndexTx_frame (tx : Tx) :
    (parseIndexTx tx).Hex = tx.Hex ∧
    (parseIndexTx tx).Txid = tx.Txid ∧
    (parseIndexTx tx).Version = tx.Version ∧
    (parseIndexTx tx).LockTime = tx.LockTime ∧
    (parseIndexTx tx).Time = tx.Time ∧
    (parseIndexTx tx).Blocktime = tx.Blocktime ∧
    (parseIndexTx tx).Vout = tx.Vout ∧
    (parseIndexTx tx).Vin.length = tx.Vin.length ∧
    ∀ (i : Nat) (hi : i < tx.Vin.length)
      (hj : i < (parseIndexTx tx).Vin.length),
      ((parseIndexTx tx).Vin.get ⟨i, hj⟩).ScriptSigHex =
        (tx.Vin.get ⟨i, hi⟩).ScriptSigHex ∧
      ((parseIndexTx tx).Vin.get ⟨i, hj⟩).Addresses =
        (tx.Vin.get ⟨i, hi⟩).Addresses := by
  refine ⟨rfl, rfl, rfl, rfl, rfl, rfl, rfl, parseIndexTx_vin_length tx, ?_⟩
  intro i hi hj
  rw [parseIndexTx_vin_get tx i hi hj]
  unfold normalizeVin
  split
  · exact ⟨rfl, rfl⟩
  · exact ⟨rfl, rfl⟩

/-- C10 witness: the frame condition evaluated at the concrete
transaction `txSample` and its rewritten input 0. -/
theorem parseIndexTx_frame_witness :
    (parseIndexTx txSample).Vout = txSample.Vout ∧
    ((parseIndexTx txSample).Vin.get ⟨0, by decide⟩).ScriptSigHex =
      (txSample.Vin.get ⟨0, by decide⟩).ScriptSigHex ∧
    ((parseIndexTx txSample).Vin.get ⟨0, by decide⟩).Addresses =
      (txSample.Vin.get ⟨0, by decide⟩).Addresses := by
  obtain ⟨h1, h2, h3, h4, h5, h6, h7, h8, h9⟩ := parseIndexTx_frame txSample
  exact ⟨h7, (h9 0 (by decide) (by decide)).1, (h9 0 (by decide) (by decide)).2⟩

end IndexChain
